import Mathlib

set_option maxRecDepth 8192

/-!
Shallow embedding of the `immich-ts` CLI core (src/src/commands/stack.ts,
src/src/index.ts auto-album command, src/src/api/index.ts).

Modelling conventions:
* JS strings are Lean `String`s; regular-expression tests are abstract
  predicates `String → Bool` (the spec itself asks for this abstraction,
  "matches(filename) → bool"); a stem pattern with one capture group is an
  abstract `String → Option String` returning the first capture when the
  pattern matches with a participating group 1, `none` otherwise.
* JS `Map` (insertion-ordered, `set` overwrites in place) is an association
  list with an order-preserving update (`mapSet`), and JS `Set` is a list
  without duplicates (`addToSet`).
* Network I/O is an explicit environment of response functions; each run
  returns the exit code together with the ordered trace of catalog calls.
  Pagination loops take a fuel bound: `none` means the loop did not
  terminate within the bound (never hit by the theorems, whose hypotheses
  provide a short page).
* `Date` parsing is abstracted by a predicate `validDate : String → Bool`
  standing for "new Date(s) is not Invalid Date".
-/

deriving instance DecidableEq for Except

/-- One asset as retained by both commands: the `AssetData` record
`{id, originalFileName}` of stack.ts and auto-album. -/
structure AssetData where
  id : String
  originalFileName : String
  deriving DecidableEq, Repr

/-- One album from `getAllAlbums`: the `{id, albumName}` fields of
`AlbumResponseDto` that the code reads. -/
structure Album where
  id : String
  albumName : String
  deriving DecidableEq, Repr

/-- The three location search fields of auto-album (`LOCATION_FIELDS`). -/
inductive LocField
  | city
  | country
  | state
  deriving DecidableEq, Repr

/-- A catalog API call, recorded in order of issue.  `searchAssets` is the
date-filtered search of the stack command (only the page number varies
within one invocation); `searchField` is auto-album's field-scoped search. -/
inductive CatalogCall
  | searchAssets (page : Nat)
  | searchField (field : LocField) (loc : String) (page : Nat)
  | getAlbumInfo (id : String)
  | getAllAlbums
  | createStack (assetIds : List String)
  | createAlbumCall (name : String) (assetIds : List String)
  deriving DecidableEq, Repr

/-- Whether a catalog call mutates the catalog (create-stack or
create-album); retrieval calls are read-only. -/
def CatalogCall.isMutation : CatalogCall → Bool
  | .createStack _ => true
  | .createAlbumCall _ _ => true
  | _ => false

/-- Order-preserving insertion-ordered map update: JS `Map.prototype.set`
(overwrites in place when the key exists, appends otherwise). -/
def mapSet {α : Type} (m : List (String × α)) (k : String) (v : α) :
    List (String × α) :=
  match m with
  | [] => [(k, v)]
  | (k', v') :: rest =>
    if k' = k then (k, v) :: rest else (k', v') :: mapSet rest k v

/-- JS `Map.prototype.get`. -/
def mapGet {α : Type} (m : List (String × α)) (k : String) : Option α :=
  match m with
  | [] => none
  | (k', v') :: rest => if k' = k then some v' else mapGet rest k

/-- JS `Set.prototype.add` on a duplicate-free list. -/
def addToSet (l : List String) (x : String) : List String :=
  if x ∈ l then l else l ++ [x]

/-!
## Paginated fetch

Both `fetchAssets` (stack.ts lines 112-150) and `searchAssetsByField`
(auto-album lines 803-861) run the identical loop: start at `page = 1`
with `size = 1000`, append `response.assets.items`, and continue while the
returned count is not strictly below `size`.  `paginate` is that loop with
an explicit fuel bound; it returns the concatenated items together with the
list of page numbers requested, in order.
-/

/-- The shared pagination loop of `fetchAssets` and `searchAssetsByField`:
`pageFn p` stands for the `items` array the server returns for page `p`. -/
def paginate (pageFn : Nat → List AssetData) (size : Nat) :
    Nat → Nat → Option (List AssetData × List Nat)
  | 0, _ => none
  | fuel + 1, page =>
    let items := pageFn page
    if items.length < size then
      some (items, [page])
    else
      match paginate pageFn size fuel (page + 1) with
      | none => none
      | some (rest, pages) => some (items ++ rest, page :: pages)

/-!
## Stem extraction (stack.ts `getFileStem`, lines 160-173)
-/

namespace Stack

/-- JS `String.prototype.lastIndexOf` for a single character, on the
character list of the string: index of the last occurrence, if any. -/
def lastIndexOf (cs : List Char) (c : Char) : Option Nat :=
  match cs with
  | [] => none
  | x :: xs =>
    match lastIndexOf xs c with
    | some i => some (i + 1)
    | none => if x = c then some 0 else none

/-- Default stem rule of `getFileStem`: `fileName.substring(0, lastDot)`
when a `'.'` occurs, the whole name otherwise. -/
def defaultStemChars (cs : List Char) : List Char :=
  match lastIndexOf cs '.' with
  | none => cs
  | some i => cs.take i

/-- The source `getFileStem`, additionally reporting (second component)
whether the `warnOnNoMatch` callback fired, i.e. a stem pattern was
supplied but produced no non-empty first capture.  `stemMatch f` models
`f.match(stemPattern)?.[1]` (the capture when the pattern matched with a
participating group 1). -/
def getFileStemR (fileName : String)
    (stemMatch : Option (String → Option String)) : String × Bool :=
  match stemMatch with
  | none => (⟨defaultStemChars fileName.data⟩, false)
  | some m =>
    match m fileName with
    | some cap =>
      if cap = "" then (⟨defaultStemChars fileName.data⟩, true) else (cap, false)
    | none => (⟨defaultStemChars fileName.data⟩, true)

/-- The stem computed by `getFileStem`. -/
def getFileStem (fileName : String)
    (stemMatch : Option (String → Option String)) : String :=
  (getFileStemR fileName stemMatch).1

/-!
## Pair resolver (stack.ts `findMatchingPairs`, lines 175-296)
-/

/-- One value of the `stemToAssets` map: at most one cover asset id and the
ordered raw asset ids. -/
structure StemEntry where
  cover : Option String
  raw : List String
  deriving DecidableEq, Repr

/-- One emitted cover/raw pair (`AssetPair` in stack.ts). -/
structure AssetPair where
  coverAssetId : String
  coverFileName : String
  rawAssetId : String
  rawFileName : String
  stem : String
  deriving DecidableEq, Repr

/-- A replaced-cover event (`replacedCovers` entries in stack.ts). -/
structure ReplacedCover where
  stem : String
  oldFile : String
  newFile : String
  deriving DecidableEq, Repr

/-- The mutable state of the `for (const asset of assets)` loop of
`findMatchingPairs`: the `stemToAssets` map, the `assetDetails` map
(asset id to file name), the `stemPatternMismatches` set and the
`replacedCovers` list. -/
structure ResolveState where
  stemToAssets : List (String × StemEntry)
  assetDetails : List (String × String)
  mismatches : List String
  replacedCovers : List ReplacedCover
  deriving DecidableEq, Repr

/-- One iteration of the asset loop of `findMatchingPairs`: classify the
asset, record its details, ensure the stem group exists, then update the
group's cover (recording a replacement event if one was present) or append
to its raw list. -/
def processAsset (coverTest rawTest : String → Bool)
    (stemMatch : Option (String → Option String))
    (st : ResolveState) (a : AssetData) : ResolveState :=
  let sr := getFileStemR a.originalFileName stemMatch
  let stem := sr.1
  let isCover := coverTest a.originalFileName
  let isRaw := rawTest a.originalFileName
  let mm := if sr.2 then addToSet st.mismatches a.originalFileName
            else st.mismatches
  let details := mapSet st.assetDetails a.id a.originalFileName
  let groups :=
    if (mapGet st.stemToAssets stem).isSome then st.stemToAssets
    else mapSet st.stemToAssets stem ⟨none, []⟩
  let entry := (mapGet groups stem).getD ⟨none, []⟩
  if isCover then
    let rc :=
      match entry.cover with
      | some old =>
        st.replacedCovers ++
          [⟨stem, (mapGet details old).getD "", a.originalFileName⟩]
      | none => st.replacedCovers
    ⟨mapSet groups stem ⟨some a.id, entry.raw⟩, details, mm, rc⟩
  else if isRaw then
    ⟨mapSet groups stem ⟨entry.cover, entry.raw ++ [a.id]⟩, details, mm,
      st.replacedCovers⟩
  else
    ⟨groups, details, mm, st.replacedCovers⟩

/-- File-name lookup used when a pair is emitted
(`assetDetails.get(id)!.fileName`). -/
def lookupName (details : List (String × String)) (id : String) : String :=
  (mapGet details id).getD ""

/-- The finalization loop of `findMatchingPairs` (lines 270-289): walk the
groups in insertion order accumulating pairs and `skippedNoMatch`. -/
def finalizeAux (details : List (String × String)) :
    List (String × StemEntry) → List AssetPair → Nat → List AssetPair × Nat
  | [], pairs, skipped => (pairs, skipped)
  | (stem, e) :: rest, pairs, skipped =>
    match e.cover with
    | some c =>
      if e.raw.length > 0 then
        finalizeAux details rest
          (pairs ++ e.raw.map (fun rid =>
            ⟨c, lookupName details c, rid, lookupName details rid, stem⟩))
          skipped
      else
        finalizeAux details rest pairs (skipped + 1)
    | none =>
      if e.raw.length > 0 then
        finalizeAux details rest pairs (skipped + e.raw.length)
      else
        finalizeAux details rest pairs skipped

/-- Pairs the finalization emits, stated directly from the spec sentence:
every group with a cover contributes one pair per raw entry, all sharing
the group's cover; groups without a cover contribute none. -/
def specPairs (details : List (String × String))
    (groups : List (String × StemEntry)) : List AssetPair :=
  groups.flatMap fun g =>
    match g.2.cover with
    | some c =>
      g.2.raw.map (fun rid =>
        ⟨c, lookupName details c, rid, lookupName details rid, g.1⟩)
    | none => []

/-- Skip count of the finalization, stated directly from the spec sentence:
a cover-less group adds its raw count, a raw-less group with a cover adds
one. -/
def specSkipped (groups : List (String × StemEntry)) : Nat :=
  (groups.map fun g =>
    match g.2.cover with
    | some _ => if g.2.raw.length = 0 then 1 else 0
    | none => g.2.raw.length).sum

/-- The result record of `findMatchingPairs` (the `stacksCreated` counter
of the source record is always returned as 0 there and is tracked by the
command model instead). -/
structure StackingResult where
  pairs : List AssetPair
  skippedNoMatch : Nat
  replacedCovers : List ReplacedCover
  mismatches : List String
  deriving DecidableEq, Repr

/-- The whole of `findMatchingPairs`: fold the asset loop, then finalize. -/
def findMatchingPairs (assets : List AssetData)
    (coverTest rawTest : String → Bool)
    (stemMatch : Option (String → Option String)) : StackingResult :=
  let st := assets.foldl (processAsset coverTest rawTest stemMatch)
    ⟨[], [], [], []⟩
  let fin := finalizeAux st.assetDetails st.stemToAssets [] 0
  ⟨fin.1, fin.2, st.replacedCovers, st.mismatches⟩

/-!
## Stack creation and the stack command (stack.ts lines 298-436)
-/

/-- The `createStacks` loop with an explicit call index: `ok i` models
whether the `i`-th `createStack` call succeeds.  Returns the number of
stacks created and the issued calls, in order; a failed call is caught and
the loop continues. -/
def createStacksAux (ok : Nat → Bool) :
    List AssetPair → Nat → Nat → List CatalogCall → Nat × List CatalogCall
  | [], _, created, calls => (created, calls)
  | p :: rest, i, created, calls =>
    createStacksAux ok rest (i + 1)
      (if ok i then created + 1 else created)
      (calls ++ [CatalogCall.createStack [p.coverAssetId, p.rawAssetId]])

/-- The source `createStacks`, returning the `created` count and the
ordered `createStack` calls issued. -/
def createStacks (ok : Nat → Bool) (pairs : List AssetPair) :
    Nat × List CatalogCall :=
  createStacksAux ok pairs 0 0 []

/-- The `parseDate` of stack.ts (lines 101-110): an absent or empty (falsy)
string yields no filter; otherwise an invalid date throws.  `validDate s`
abstracts "`new Date(s)` is not Invalid Date"; the returned value stands
for `date.toISOString()` (kept abstract as the string itself, since the
environment's page responses are already fixed per invocation). -/
def parseDate (validDate : String → Bool) :
    Option String → Except String (Option String)
  | none => .ok none
  | some s =>
    if s = "" then .ok none
    else if validDate s then .ok (some s)
    else .error ("Invalid date format: " ++ s)

/-- The catalog environment seen by one stack invocation: date validity,
the page responses of the date-filtered search, album contents for
`getAlbumInfo`, and the success of each `createStack` call by issue
index. -/
structure Env where
  validDate : String → Bool
  pages : Nat → List AssetData
  albumAssets : String → List AssetData
  stackOk : Nat → Bool

/-- The stack command options the model needs (regex options already
abstracted to predicates; `verbose` only affects printing). -/
structure Options where
  coverTest : String → Bool
  rawTest : String → Bool
  stemMatch : Option (String → Option String)
  dryRun : Bool
  after : Option String
  before : Option String
  albumId : Option String

/-- Observable outcome of a stack run: the returned exit code and the
ordered catalog calls issued. -/
structure Outcome where
  exit : Nat
  trace : List CatalogCall
  deriving DecidableEq, Repr

/-- The tail of `stack` from the pair analysis on (lines 400-435): early
success on no pairs, dry-run success, otherwise the creation loop and the
all-succeeded exit code. -/
def resultPhase (env : Env) (o : Options) (r : StackingResult)
    (calls : List CatalogCall) : Outcome :=
  if r.pairs.length = 0 then ⟨0, calls⟩
  else if o.dryRun then ⟨0, calls⟩
  else
    let cs := createStacks env.stackOk r.pairs
    ⟨if cs.1 = r.pairs.length then 0 else 1, calls ++ cs.2⟩

/-- The part of `stack` after the assets are fetched (lines 381-435). -/
def stackTail (env : Env) (o : Options) (assets : List AssetData)
    (calls : List CatalogCall) : Outcome :=
  if assets.length = 0 then ⟨0, calls⟩
  else
    resultPhase env o
      (findMatchingPairs assets o.coverTest o.rawTest o.stemMatch) calls

/-- The whole `stack` command (lines 338-436).  `none` means a pagination
loop exceeded the fuel; `Except.error` is a thrown configuration error
(carrying the message and the catalog calls already issued when it was
thrown).  With `--album` the date options are never parsed (the source
only warns that they are ignored); otherwise `--after` then `--before`
are parsed before the search starts. -/
def stackRun (env : Env) (o : Options) (fuel : Nat) :
    Option (Except (String × List CatalogCall) Outcome) :=
  match o.albumId with
  | some aid =>
    some (.ok (stackTail env o (env.albumAssets aid)
      [CatalogCall.getAlbumInfo aid]))
  | none =>
    match parseDate env.validDate o.after with
    | .error msg => some (.error (msg, []))
    | .ok _ =>
      match parseDate env.validDate o.before with
      | .error msg => some (.error (msg, []))
      | .ok _ =>
        match paginate env.pages 1000 fuel 1 with
        | none => none
        | some (assets, pages) =>
          some (.ok (stackTail env o assets
            (pages.map CatalogCall.searchAssets)))

/-- Exit code observed by the shell: `main` in src/src/index.ts catches a
thrown "Invalid date" error and returns 1. -/
def mainExit (r : Option (Except (String × List CatalogCall) Outcome)) :
    Option Nat :=
  match r with
  | none => none
  | some (.error _) => some 1
  | some (.ok out) => some out.exit

/-- The `fetchAssets` pagination of stack.ts (lines 112-150): the shared
loop starting at page 1 with page size 1000. -/
def fetchAssets (env : Env) (fuel : Nat) :
    Option (List AssetData × List Nat) :=
  paginate env.pages 1000 fuel 1

end Stack

/-!
## Auto-album command (src/src/index.ts lines 708-1016)
-/

namespace AutoAlbum

/-- First-occurrence deduplication by asset id: the `seenIds` /
`uniqueResults` loop of `findAssetsForLocation` (index.ts lines 885-893).
`seen` is the set of ids already kept. -/
def dedupByIdAux (seen : List String) : List AssetData → List AssetData
  | [] => []
  | a :: rest =>
    if a.id ∈ seen then dedupByIdAux seen rest
    else a :: dedupByIdAux (a.id :: seen) rest

/-- Deduplication by id, preserving first-occurrence order. -/
def dedupById (l : List AssetData) : List AssetData :=
  dedupByIdAux [] l

/-- Result of one location's aggregation (`LocationSearchResult`),
holding the deduplicated assets and the pre-deduplication per-field
counts. -/
structure LocationSearchResult where
  assets : List AssetData
  cityCount : Nat
  countryCount : Nat
  stateCount : Nat
  deriving DecidableEq, Repr

/-- The catalog environment of one auto-album invocation. -/
structure Env where
  validDate : String → Bool
  albums : List Album
  search : LocField → String → Nat → List AssetData
  createAlbumOk : Bool

/-- The auto-album options the model needs (`--after`/`--before` are
required strings here; `verbose` only affects printing). -/
structure Options where
  name : String
  after : String
  before : String
  locations : List String
  dryRun : Bool

/-- The `searchAssetsByField` pagination (index.ts lines 803-861): the
shared loop starting at page 1 with page size 1000, on one field filter. -/
def searchAssetsByField (env : Env) (field : LocField) (loc : String)
    (fuel : Nat) : Option (List AssetData × List Nat) :=
  paginate (env.search field loc) 1000 fuel 1

/-- The `findAssetsForLocation` of index.ts (lines 863-899): the three
field searches (joined in the fixed order city, country, state), the
pre-deduplication counts, and the deduplicated concatenation.  Also
returns the search calls issued. -/
def findAssetsForLocationM (env : Env) (loc : String) (fuel : Nat) :
    Option (LocationSearchResult × List CatalogCall) :=
  match searchAssetsByField env .city loc fuel with
  | none => none
  | some (city, cp) =>
    match searchAssetsByField env .country loc fuel with
    | none => none
    | some (country, op) =>
      match searchAssetsByField env .state loc fuel with
      | none => none
      | some (state, sp) =>
        some (⟨dedupById (city ++ country ++ state),
               city.length, country.length, state.length⟩,
          cp.map (CatalogCall.searchField .city loc) ++
            op.map (CatalogCall.searchField .country loc) ++
            sp.map (CatalogCall.searchField .state loc))

/-- The `albumExistsByName` of index.ts (lines 901-903): JS `===` on the
album name, i.e. case-sensitive exact string equality. -/
def albumExistsByName (albums : List Album) (name : String) : Bool :=
  albums.any (fun album => album.albumName = name)

/-- The sequential per-location loop of `autoAlbum` (lines 935-965):
accumulates the running id set (insertion order, as `Array.from` of the
JS Set), the per-location new-asset counts, and the issued calls. -/
def processLocationsAux (env : Env) (fuel : Nat) :
    List String → List String → List (String × Nat) → List CatalogCall →
      Option (List String × List (String × Nat) × List CatalogCall)
  | [], ids, counts, calls => some (ids, counts, calls)
  | loc :: rest, ids, counts, calls =>
    match findAssetsForLocationM env loc fuel with
    | none => none
    | some (r, lcalls) =>
      let newAssets := r.assets.filter (fun a => !(ids.contains a.id))
      processLocationsAux env fuel rest
        (ids ++ newAssets.map AssetData.id)
        (counts ++ [(loc, newAssets.length)])
        (calls ++ lcalls)

/-- Observable outcome of an auto-album run. -/
structure Outcome where
  exit : Nat
  trace : List CatalogCall
  deriving DecidableEq, Repr

/-- The whole `autoAlbum` command (index.ts lines 909-1016): parse the two
required dates (no falsy guard here, so an empty string is also checked
and throws), list all albums and abort with exit 1 on an exact name
match, aggregate the locations sequentially, then either stop (dry run,
exit 0) or issue the single `createAlbum` call (exit 0 on success, 1 on
failure). -/
def autoAlbumRun (env : Env) (o : Options) (fuel : Nat) :
    Option (Except (String × List CatalogCall) Outcome) :=
  if env.validDate o.after = false then
    some (.error ("Invalid date format: " ++ o.after, []))
  else if env.validDate o.before = false then
    some (.error ("Invalid date format: " ++ o.before, []))
  else if albumExistsByName env.albums o.name then
    some (.ok ⟨1, [CatalogCall.getAllAlbums]⟩)
  else
    match processLocationsAux env fuel o.locations [] [] [] with
    | none => none
    | some (ids, _, calls) =>
      if o.dryRun then
        some (.ok ⟨0, CatalogCall.getAllAlbums :: calls⟩)
      else
        some (.ok ⟨if env.createAlbumOk then 0 else 1,
          (CatalogCall.getAllAlbums :: calls) ++
            [CatalogCall.createAlbumCall o.name ids]⟩)

end AutoAlbum

/-!
## Concrete fixtures used by the scenario conjuncts and witnesses
-/

/-- Suffix test standing for an anchored extension regex such as
`/\.jpg$/`. -/
def endsIn (suf : String) (f : String) : Bool := suf.data.isSuffixOf f.data

/-- Cover classifier of the spec scenario, standing for
`/\.(jpg|jpeg)$/`. -/
def coverJpg : String → Bool := fun f => endsIn ".jpg" f || endsIn ".jpeg" f

/-- Raw classifier of the spec scenario, standing for `/\.dng$/`. -/
def rawDng : String → Bool := fun f => endsIn ".dng" f

/-- The asset list of the spec scenario for the pair resolver. -/
def scenarioAssets : List AssetData :=
  [⟨"a1", "IMG_001.jpg"⟩, ⟨"a2", "IMG_001.dng"⟩, ⟨"a3", "IMG_002.jpg"⟩]

/-- Fixture for the C5 witness: the resolver state after a cover
`{id "x", "A.jpg"}` was recorded for stem `"S"`. -/
def stW : Stack.ResolveState := ⟨[("S", ⟨some "x", []⟩)], [("x", "A.jpg")], [], []⟩

/-- Fixture for the C5 witness: a second cover arriving for stem `"S"`. -/
def aW : AssetData := ⟨"y", "B.jpg"⟩

/-- Fixture for the C5 witness: a stem pattern whose capture is always
`"S"`. -/
def smW : Option (String → Option String) := some fun _ => some "S"

/-- Environment for the C7 scenario: city field returns ids 1,2,3 and
country field returns ids 3,4,5 on page 1. -/
def envC7 : AutoAlbum.Env :=
  ⟨fun _ => true, [],
   fun field _ p =>
     if p = 1 then
       match field with
       | .city => [⟨"1", "a"⟩, ⟨"2", "b"⟩, ⟨"3", "c"⟩]
       | .country => [⟨"3", "c"⟩, ⟨"4", "d"⟩, ⟨"5", "e"⟩]
       | .state => []
     else [], true⟩

/-- Result fixture for the C7 witness (the scenario's deduplicated
outcome). -/
def rC7 : AutoAlbum.LocationSearchResult :=
  ⟨[⟨"1", "a"⟩, ⟨"2", "b"⟩, ⟨"3", "c"⟩, ⟨"4", "d"⟩, ⟨"5", "e"⟩], 3, 3, 0⟩

/-- Call-trace fixture for the C7 witness. -/
def callsC7 : List CatalogCall :=
  [.searchField .city "L" 1, .searchField .country "L" 1,
    .searchField .state "L" 1]

/-- Environment for the C2 witness: an album named `"Trip"` exists. -/
def envC2 : AutoAlbum.Env :=
  ⟨fun _ => true, [⟨"alb1", "Trip"⟩], fun _ _ _ => [], true⟩

/-- Options for the C2 witness: create `"Trip"` again. -/
def optsC2 : AutoAlbum.Options :=
  ⟨"Trip", "2024-01-01", "2024-02-01", ["Rome"], false⟩

/-- Environment for the C1 counterexample: an album whose two assets form
one cover/raw pair; every create-stack call succeeds. -/
def envC1 : Stack.Env :=
  ⟨fun _ => true, fun _ => [],
   fun _ => [⟨"a1", "X.jpg"⟩, ⟨"a2", "X.dng"⟩], fun _ => true⟩

/-- Options for the C1 counterexample: a plain (non-dry-run) stack
invocation restricted to an album. -/
def optsC1 : Stack.Options :=
  ⟨fun f => endsIn ".jpg" f, fun f => endsIn ".dng" f, none, false,
   none, none, some "alb"⟩

/-- Environment for the C1 amended witness: no conflicting album, empty
search results. -/
def envW1 : AutoAlbum.Env := ⟨fun _ => true, [], fun _ _ _ => [], true⟩

/-- Options for the C1 amended witness: one location, dry run. -/
def optsW1 : AutoAlbum.Options :=
  ⟨"Trip", "2024-01-01", "2024-02-01", ["Rome"], true⟩

/-- Outcome of the C1 amended witness run. -/
def outW1 : AutoAlbum.Outcome :=
  ⟨0, [CatalogCall.getAllAlbums,
    CatalogCall.searchField .city "Rome" 1,
    CatalogCall.searchField .country "Rome" 1,
    CatalogCall.searchField .state "Rome" 1]⟩

/-- Environment for the C8 counterexample: every date string is invalid;
the album is empty. -/
def envC8 : Stack.Env := ⟨fun _ => false, fun _ => [], fun _ => [], fun _ => true⟩

/-- Options for the C8 counterexample: `--album` together with an invalid
`--after`. -/
def optsC8 : Stack.Options :=
  ⟨fun _ => false, fun _ => false, none, false, some "garbage", none,
   some "alb"⟩

/-- Environment for the C8 amended witness. -/
def envW8 : Stack.Env := ⟨fun _ => false, fun _ => [], fun _ => [], fun _ => true⟩

/-- Options for the C8 amended witness: no `--album`, invalid
`--after`. -/
def optsW8 : Stack.Options :=
  ⟨fun _ => false, fun _ => false, none, false, some "nope", none, none⟩

/-- Environment for the C10 counterexample: the album `"Trip"` already
exists and every retrieval succeeds. -/
def envC10 : AutoAlbum.Env :=
  ⟨fun _ => true, [⟨"alb1", "Trip"⟩], fun _ _ _ => [], true⟩

/-- Options for the C10 counterexample: a dry-run auto-album invocation
named `"Trip"`. -/
def optsC10 : AutoAlbum.Options :=
  ⟨"Trip", "2024-01-01", "2024-02-01", ["Rome"], true⟩

/-- Environment for the C10 amended witness: a dry-run stack invocation
on an album with a matching pair. -/
def envW10 : Stack.Env :=
  ⟨fun _ => true, fun _ => [],
   fun _ => [⟨"a1", "X.jpg"⟩, ⟨"a2", "X.dng"⟩], fun _ => true⟩

/-- Options for the C10 amended witness. -/
def optsW10 : Stack.Options :=
  ⟨fun f => endsIn ".jpg" f, fun f => endsIn ".dng" f, none, true,
   none, none, some "alb"⟩

/-- Outcome of the C10 amended witness run: only the album fetch, exit
0. -/
def outW10 : Stack.Outcome := ⟨0, [CatalogCall.getAlbumInfo "alb"]⟩

/-!
## Lemmas
-/

theorem mapGet_mapSet_self {α : Type} (m : List (String × α)) (k : String)
    (v : α) : mapGet (mapSet m k v) k = some v := by
  induction m with
  | nil => simp [mapSet, mapGet]
  | cons hd tl ih =>
    obtain ⟨k', v'⟩ := hd
    by_cases h : k' = k
    · simp [mapSet, mapGet, h]
    · simp [mapSet, mapGet, h, ih]

theorem mapGet_mapSet_ne {α : Type} (m : List (String × α)) (k k' : String)
    (v : α) (h : k ≠ k') : mapGet (mapSet m k v) k' = mapGet m k' := by
  induction m with
  | nil => simp [mapSet, mapGet, h]
  | cons hd tl ih =>
    obtain ⟨k₀, v₀⟩ := hd
    by_cases h₀ : k₀ = k
    · subst h₀
      simp [mapSet, mapGet, h]
    · simp [mapSet, mapGet, h₀, ih]

/-- Characterization of the pagination loop: if pages `start..start+k-1`
are full and page `start+k` is short, the loop returns the concatenation
of pages `start..start+k` and requests exactly those pages in order. -/
theorem paginate_spec (pageFn : Nat → List AssetData) (size : Nat)
    (k start fuel : Nat)
    (hfull : ∀ j, j < k → size ≤ (pageFn (start + j)).length)
    (hshort : (pageFn (start + k)).length < size)
    (hfuel : k < fuel) :
    paginate pageFn size fuel start =
      some ((((List.range (k + 1)).map (fun j => pageFn (start + j))).flatten),
            (List.range (k + 1)).map (fun j => start + j)) := by
  induction k generalizing start fuel with
  | zero =>
    obtain ⟨f, rfl⟩ : ∃ f, fuel = f + 1 :=
      ⟨fuel - 1, (Nat.succ_pred_eq_of_pos hfuel).symm⟩
    simp only [Nat.add_zero] at hshort
    simp [paginate, hshort, List.range_succ]
  | succ k ih =>
    obtain ⟨f, rfl⟩ : ∃ f, fuel = f + 1 :=
      ⟨fuel - 1, (Nat.succ_pred_eq_of_pos (Nat.lt_of_le_of_lt (Nat.zero_le _) hfuel)).symm⟩
    have hfirst : ¬ (pageFn start).length < size := by
      have := hfull 0 (Nat.succ_pos k)
      simpa using Nat.not_lt_of_ge this
    have hrec := ih (start + 1) f
      (fun j hj => by
        have := hfull (j + 1) (Nat.succ_lt_succ hj)
        simpa [Nat.add_comm, Nat.add_assoc, Nat.add_left_comm] using this)
      (by simpa [Nat.add_comm, Nat.add_assoc, Nat.add_left_comm] using hshort)
      (Nat.lt_of_succ_lt_succ hfuel)
    simp only [paginate, hfirst, if_false, hrec]
    have hrange : List.range (k + 1 + 1) = 0 :: (List.range (k + 1)).map Nat.succ :=
      List.range_succ_eq_map (k + 1)
    have h1 : (fun j => pageFn (start + 1 + j)) = (fun j => pageFn (start + (j + 1))) := by
      funext j
      rw [Nat.add_assoc, Nat.add_comm 1 j]
    have h2 : (fun j : Nat => start + 1 + j) = (fun j => start + (j + 1)) := by
      funext j
      rw [Nat.add_assoc, Nat.add_comm 1 j]
    simp [hrange, List.map_map, Function.comp_def, h1, h2, Nat.succ_eq_add_one]

namespace Stack

theorem lastIndexOf_spec (cs : List Char) (c : Char) :
    (lastIndexOf cs c = none → c ∉ cs) ∧
    (∀ i, lastIndexOf cs c = some i →
      ∃ suffix, cs.take i ++ c :: suffix = cs ∧ c ∉ suffix) := by
  induction cs with
  | nil => simp [lastIndexOf]
  | cons x xs ih =>
    constructor
    · intro hnone
      simp only [lastIndexOf] at hnone
      cases hrec : lastIndexOf xs c with
      | some i => simp [hrec] at hnone
      | none =>
        simp only [hrec] at hnone
        by_cases hx : x = c
        · simp [hx] at hnone
        · have hxs := ih.1 hrec
          simp [hx, hxs]
          exact fun h => hx h.symm
    · intro i hi
      simp only [lastIndexOf] at hi
      cases hrec : lastIndexOf xs c with
      | some j =>
        simp only [hrec, Option.some.injEq] at hi
        obtain ⟨s, hs, hnot⟩ := ih.2 j hrec
        refine ⟨s, ?_, hnot⟩
        subst hi
        simp [List.take_succ_cons, hs]
      | none =>
        simp only [hrec] at hi
        by_cases hx : x = c
        · simp only [hx, if_true, Option.some.injEq] at hi
          subst hi
          exact ⟨xs, by simp [hx], ih.1 hrec⟩
        · simp [hx] at hi

/-- Characterization of the default stem rule: either the name has no dot
and is returned unchanged, or the name splits as `stem ++ "." ++ suffix`
with a dot-free suffix (so the split is at the last dot). -/
theorem defaultStemChars_spec (cs : List Char) :
    ('.' ∉ cs ∧ defaultStemChars cs = cs) ∨
    (∃ suffix, defaultStemChars cs ++ '.' :: suffix = cs ∧ '.' ∉ suffix) := by
  unfold defaultStemChars
  cases h : lastIndexOf cs '.' with
  | none => exact Or.inl ⟨(lastIndexOf_spec cs '.').1 h, rfl⟩
  | some i =>
    obtain ⟨s, hs, hnot⟩ := (lastIndexOf_spec cs '.').2 i h
    exact Or.inr ⟨s, hs, hnot⟩

theorem finalizeAux_spec (details : List (String × String))
    (groups : List (String × StemEntry)) (pairs : List AssetPair)
    (skipped : Nat) :
    finalizeAux details groups pairs skipped =
      (pairs ++ specPairs details groups, skipped + specSkipped groups) := by
  induction groups generalizing pairs skipped with
  | nil => simp [finalizeAux, specPairs, specSkipped]
  | cons g rest ih =>
    obtain ⟨stem, e⟩ := g
    cases hc : e.cover with
    | some c =>
      by_cases hr : e.raw.length > 0
      · have hr0 : ¬ e.raw.length = 0 := by omega
        have hne : ¬ e.raw = [] := fun h => hr0 (by simp [h])
        simp [finalizeAux, hc, hr, ih, specPairs, specSkipped, hr0, hne,
          List.append_assoc]
      · have hr0 : e.raw.length = 0 := by omega
        have hraw : e.raw = [] := List.length_eq_zero.mp hr0
        simp [finalizeAux, hc, hr, ih, specPairs, specSkipped, hraw,
          Nat.add_assoc, Nat.add_comm 1]
    | none =>
      by_cases hr : e.raw.length > 0
      · simp [finalizeAux, hc, hr, ih, specPairs, specSkipped,
          Nat.add_assoc, Nat.add_comm (e.raw.length)]
      · have hr0 : e.raw.length = 0 := by omega
        have hraw : e.raw = [] := List.length_eq_zero.mp hr0
        simp [finalizeAux, hc, hr, ih, specPairs, specSkipped, hraw]

theorem createStacksAux_spec (ok : Nat → Bool) (pairs : List AssetPair)
    (i created : Nat) (calls : List CatalogCall) :
    createStacksAux ok pairs i created calls =
      (created + (List.range pairs.length).countP (fun j => ok (i + j)),
       calls ++ pairs.map (fun p =>
         CatalogCall.createStack [p.coverAssetId, p.rawAssetId])) := by
  induction pairs generalizing i created calls with
  | nil => simp [createStacksAux]
  | cons p rest ih =>
    have hrange : List.range (rest.length + 1) =
        0 :: (List.range rest.length).map Nat.succ :=
      List.range_succ_eq_map rest.length
    have hcount : (List.range (rest.length + 1)).countP (fun j => ok (i + j)) =
        (if ok i then 1 else 0) +
          (List.range rest.length).countP (fun j => ok (i + 1 + j)) := by
      simp only [hrange, List.countP_cons, List.countP_map]
      have : ((fun j => ok (i + j)) ∘ Nat.succ) = fun j => ok (i + 1 + j) := by
        funext j
        simp [Function.comp, Nat.add_assoc, Nat.add_comm 1 j, Nat.succ_eq_add_one]
      rw [this]
      by_cases h : ok i
      · simp [h, Nat.add_comm]
      · simp [h]
    simp only [createStacksAux, ih, List.length_cons, hcount, List.map_cons]
    by_cases h : ok i
    · simp [h, List.append_assoc]
      omega
    · simp [h, List.append_assoc]

end Stack

namespace AutoAlbum

theorem dedupByIdAux_sublist (seen : List String) (l : List AssetData) :
    (dedupByIdAux seen l).Sublist l := by
  induction l generalizing seen with
  | nil => simp [dedupByIdAux]
  | cons a rest ih =>
    by_cases h : a.id ∈ seen
    · exact List.Sublist.trans (by simpa [dedupByIdAux, h] using ih seen)
        (List.sublist_cons_self a rest)
    · simpa [dedupByIdAux, h] using List.Sublist.cons₂ a (ih (a.id :: seen))

theorem dedupByIdAux_mem (seen : List String) (l : List AssetData)
    (x : String) :
    x ∈ (dedupByIdAux seen l).map AssetData.id ↔
      x ∈ l.map AssetData.id ∧ x ∉ seen := by
  induction l generalizing seen with
  | nil => simp [dedupByIdAux]
  | cons a rest ih =>
    by_cases h : a.id ∈ seen
    · simp only [dedupByIdAux, h, if_true, List.map_cons, List.mem_cons]
      rw [ih]
      constructor
      · exact fun ⟨hm, hn⟩ => ⟨Or.inr hm, hn⟩
      · rintro ⟨hm | hm, hn⟩
        · exact absurd (hm ▸ h) hn
        · exact ⟨hm, hn⟩
    · simp only [dedupByIdAux, h, if_false, List.map_cons, List.mem_cons]
      rw [ih]
      constructor
      · rintro (rfl | ⟨hm, hn⟩)
        · exact ⟨Or.inl rfl, h⟩
        · exact ⟨Or.inr hm, fun hx => hn (List.mem_cons_of_mem _ hx)⟩
      · rintro ⟨rfl | hm, hn⟩
        · exact Or.inl rfl
        · by_cases hx : x = a.id
          · exact Or.inl hx
          · exact Or.inr ⟨hm, by simp [hx, hn]⟩

theorem dedupByIdAux_nodup (seen : List String) (l : List AssetData) :
    ((dedupByIdAux seen l).map AssetData.id).Nodup := by
  induction l generalizing seen with
  | nil => simp [dedupByIdAux]
  | cons a rest ih =>
    by_cases h : a.id ∈ seen
    · simpa [dedupByIdAux, h] using ih seen
    · simp only [dedupByIdAux, h, if_false, List.map_cons, List.nodup_cons]
      refine ⟨fun hmem => ?_, ih (a.id :: seen)⟩
      exact ((dedupByIdAux_mem (a.id :: seen) rest a.id).mp hmem).2
        (List.mem_cons_self a.id seen)

end AutoAlbum

/-!
## Claims
-/

/-- C4: for every filename the computed stem is the first capture group
when the stem pattern matches with a non-empty first capture; in every
other case (no pattern, no match, empty capture) it is the substring
before the last `'.'`, or the whole filename when no `'.'` occurs;
with the three example evaluations from the spec. -/
theorem C4_stem_extraction :
    (∀ (f : String) (m : String → Option String) (cap : String),
      m f = some cap → cap ≠ "" → Stack.getFileStem f (some m) = cap) ∧
    (∀ (f : String) (m : String → Option String),
      (m f = none ∨ m f = some "") →
      Stack.getFileStem f (some m) = Stack.getFileStem f none) ∧
    (∀ f : String,
      ('.' ∉ f.data ∧ Stack.getFileStem f none = f) ∨
      (∃ suffix, (Stack.getFileStem f none).data ++ '.' :: suffix = f.data ∧
        '.' ∉ suffix)) ∧
    Stack.getFileStem "IMG_001.jpg" none = "IMG_001" ∧
    Stack.getFileStem "README" none = "README" ∧
    Stack.getFileStem ".hidden.dng" none = ".hidden" := by
  refine ⟨?_, ?_, ?_, by decide, by decide, by decide⟩
  · intro f m cap hm hne
    simp [Stack.getFileStem, Stack.getFileStemR, hm, hne]
  · intro f m hm
    rcases hm with hm | hm <;>
      simp [Stack.getFileStem, Stack.getFileStemR, hm]
  · intro f
    have hd : (Stack.getFileStem f none).data =
        Stack.defaultStemChars f.data := rfl
    rcases Stack.defaultStemChars_spec f.data with ⟨hnot, heq⟩ | ⟨suffix, hs, hnot⟩
    · left
      refine ⟨hnot, ?_⟩
      exact String.ext (hd.trans heq)
    · right
      exact ⟨suffix, by rw [hd]; exact hs, hnot⟩

/-- C4 witness: concrete application with a stem pattern producing a
non-empty capture. -/
theorem C4_stem_extraction_witness :
    Stack.getFileStem "x.y" (some fun _ => some "G1") = "G1" :=
  C4_stem_extraction.1 "x.y" (fun _ => some "G1") "G1" rfl (by decide)

/-- C3: after all assets are consumed, each group with a cover contributes
one pair per raw entry (each sharing the group's cover), a cover-less
group adds its raw count to `skippedNoMatch`, and a raw-less group with a
cover adds 1; the spec scenario yields exactly one pair
(`IMG_001.jpg` + `IMG_001.dng`) and `skippedNoMatch = 1`. -/
theorem C3_finalization :
    (∀ (details : List (String × String)) (groups : List (String × Stack.StemEntry)),
      Stack.finalizeAux details groups [] 0 =
        (Stack.specPairs details groups, Stack.specSkipped groups)) ∧
    Stack.findMatchingPairs scenarioAssets coverJpg rawDng none =
      ⟨[⟨"a1", "IMG_001.jpg", "a2", "IMG_001.dng", "IMG_001"⟩], 1, [], []⟩ := by
  refine ⟨fun details groups => ?_, by decide⟩
  simpa using Stack.finalizeAux_spec details groups [] 0

/-- C6: the paginated fetch of both commands is the shared loop starting
at page 1 with size 1000; when pages `1..k` are full and page `k+1` is
short (possibly empty), it returns the concatenation of pages `1..k+1` in
order and requests exactly the pages `1..k+1`. -/
theorem C6_pagination :
    (∀ env fuel, Stack.fetchAssets env fuel = paginate env.pages 1000 fuel 1) ∧
    (∀ env field loc fuel,
      AutoAlbum.searchAssetsByField env field loc fuel =
        paginate (env.search field loc) 1000 fuel 1) ∧
    (∀ (pageFn : Nat → List AssetData) (k fuel : Nat),
      (∀ j, j < k → 1000 ≤ (pageFn (1 + j)).length) →
      (pageFn (1 + k)).length < 1000 →
      k < fuel →
      paginate pageFn 1000 fuel 1 =
        some ((((List.range (k + 1)).map (fun j => pageFn (1 + j))).flatten),
              (List.range (k + 1)).map (fun j => 1 + j))) := by
  exact ⟨fun _ _ => rfl, fun _ _ _ _ => rfl,
    fun pageFn k fuel hfull hshort hfuel =>
      paginate_spec pageFn 1000 k 1 fuel hfull hshort hfuel⟩

/-- C6 witness: a first page with zero items already stops the fetch. -/
theorem C6_pagination_witness :
    paginate (fun _ => ([] : List AssetData)) 1000 1 1 = some ([], [1]) := by
  have h := C6_pagination.2.2 (fun _ => ([] : List AssetData)) 0 1
    (fun j hj => absurd hj (Nat.not_lt_zero j)) (by simp) (by omega)
  simpa using h

/-- C5: when a cover-classified asset arrives for a stem whose group
already holds a cover, the new asset's id overwrites the old cover (last
cover wins) and a cover-replaced event recording the stem, the old
cover's filename and the new cover's filename is appended; the event is
informational only — the result phase of the command (hence the exit
code) depends only on the pairs, not on the replaced-cover events.
(The side conditions say the stream is well formed: the old cover is a
different asset id whose filename is the one on record.) -/
theorem C5_cover_replaced :
    (∀ (ct rt : String → Bool) (sm : Option (String → Option String))
      (st : Stack.ResolveState) (a : AssetData) (e : Stack.StemEntry)
      (old oldName : String),
      ct a.originalFileName = true →
      mapGet st.stemToAssets (Stack.getFileStem a.originalFileName sm) = some e →
      e.cover = some old →
      old ≠ a.id →
      mapGet st.assetDetails old = some oldName →
      mapGet (Stack.processAsset ct rt sm st a).stemToAssets
          (Stack.getFileStem a.originalFileName sm) = some ⟨some a.id, e.raw⟩ ∧
      (Stack.processAsset ct rt sm st a).replacedCovers =
        st.replacedCovers ++
          [⟨Stack.getFileStem a.originalFileName sm, oldName,
            a.originalFileName⟩]) ∧
    (∀ env o (r r' : Stack.StackingResult) calls, r.pairs = r'.pairs →
      Stack.resultPhase env o r calls = Stack.resultPhase env o r' calls) := by
  constructor
  · intro ct rt sm st a e old oldName hct hget hcov hne hdet
    simp only [Stack.getFileStem] at hget ⊢
    simp [Stack.processAsset, hct, hget, hcov,
      mapGet_mapSet_self, mapGet_mapSet_ne st.assetDetails a.id old _
        (Ne.symm hne), hdet, Stack.lookupName]
  · intro env o r r' calls h
    simp [Stack.resultPhase, h]

/-- C5 witness: the second cover for stem `"S"` overwrites the first and
appends the replacement event with the old and new filenames. -/
theorem C5_cover_replaced_witness :
    mapGet (Stack.processAsset (endsIn ".jpg") rawDng smW stW aW).stemToAssets
        (Stack.getFileStem "B.jpg" smW) = some ⟨some "y", []⟩ ∧
    (Stack.processAsset (endsIn ".jpg") rawDng smW stW aW).replacedCovers =
      [⟨Stack.getFileStem "B.jpg" smW, "A.jpg", "B.jpg"⟩] := by
  have h := C5_cover_replaced.1 (endsIn ".jpg") rawDng smW stW aW
    ⟨some "x", []⟩ "x" "A.jpg" (by decide) (by decide) rfl (by decide) (by decide)
  simpa using h

/-- C7: for one location the three field results are concatenated in the
fixed order city, country, state and deduplicated by asset id preserving
first occurrence; the reported per-field counts are the pre-deduplication
sizes; the returned list holds each id exactly once and keeps exactly the
ids of the concatenation; city `{1,2,3}` with country `{3,4,5}` yields
cardinality 5. -/
theorem C7_location_aggregation :
    (∀ env loc fuel r calls,
      AutoAlbum.findAssetsForLocationM env loc fuel = some (r, calls) →
      ∃ city cp country op state sp,
        AutoAlbum.searchAssetsByField env .city loc fuel = some (city, cp) ∧
        AutoAlbum.searchAssetsByField env .country loc fuel = some (country, op) ∧
        AutoAlbum.searchAssetsByField env .state loc fuel = some (state, sp) ∧
        r.cityCount = city.length ∧
        r.countryCount = country.length ∧
        r.stateCount = state.length ∧
        r.assets = AutoAlbum.dedupById (city ++ country ++ state) ∧
        (r.assets.map AssetData.id).Nodup ∧
        r.assets.Sublist (city ++ country ++ state) ∧
        (∀ x, x ∈ r.assets.map AssetData.id ↔
          x ∈ (city ++ country ++ state).map AssetData.id)) ∧
    (∃ r calls,
      AutoAlbum.findAssetsForLocationM envC7 "L" 1 = some (r, calls) ∧
      r.assets.length = 5 ∧ r.cityCount = 3 ∧ r.countryCount = 3) := by
  constructor
  · intro env loc fuel r calls h
    unfold AutoAlbum.findAssetsForLocationM at h
    cases hc : AutoAlbum.searchAssetsByField env .city loc fuel with
    | none => rw [hc] at h; exact absurd h (by simp)
    | some pc =>
      obtain ⟨city, cp⟩ := pc
      rw [hc] at h
      cases ho : AutoAlbum.searchAssetsByField env .country loc fuel with
      | none => rw [ho] at h; exact absurd h (by simp)
      | some po =>
        obtain ⟨country, op⟩ := po
        rw [ho] at h
        cases hs : AutoAlbum.searchAssetsByField env .state loc fuel with
        | none => rw [hs] at h; exact absurd h (by simp)
        | some ps =>
          obtain ⟨state, sp⟩ := ps
          rw [hs] at h
          simp only [Option.some.injEq, Prod.mk.injEq] at h
          obtain ⟨hr, -⟩ := h
          subst hr
          refine ⟨city, cp, country, op, state, sp, rfl, rfl, rfl,
            rfl, rfl, rfl, rfl, ?_, ?_, ?_⟩
          · exact AutoAlbum.dedupByIdAux_nodup [] _
          · exact AutoAlbum.dedupByIdAux_sublist [] _
          · intro x
            have := AutoAlbum.dedupByIdAux_mem [] (city ++ country ++ state) x
            simpa [AutoAlbum.dedupById] using this
  · exact ⟨⟨[⟨"1", "a"⟩, ⟨"2", "b"⟩, ⟨"3", "c"⟩, ⟨"4", "d"⟩, ⟨"5", "e"⟩],
      3, 3, 0⟩,
      [.searchField .city "L" 1, .searchField .country "L" 1,
        .searchField .state "L" 1],
      by decide, by decide, by decide, by decide⟩

/-- C7 witness: applying the aggregation theorem to the concrete scenario
environment yields duplicate-free ids and the pre-deduplication city
count 3. -/
theorem C7_location_aggregation_witness :
    (rC7.assets.map AssetData.id).Nodup := by
  obtain ⟨city, cp, country, op, state, sp, -, -, -, -, -, -, -, hnodup, -, -⟩ :=
    C7_location_aggregation.1 envC7 "L" 1 rC7 callsC7 (by decide)
  exact hnodup

/-- C9: stack creation issues exactly one create-stack call per pair, in
resolver order, with exactly the ids `[coverId, rawId]`, regardless of
failures (a failed call does not stop the rest); the created count equals
the pair count iff every call succeeded; and in the command's result
phase (not in dry-run) the exit code is 0 iff every attempted call
succeeded, zero pairs counting as success. -/
theorem C9_stack_creation :
    (∀ (ok : Nat → Bool) (pairs : List Stack.AssetPair),
      (Stack.createStacks ok pairs).2 =
        pairs.map (fun p =>
          CatalogCall.createStack [p.coverAssetId, p.rawAssetId])) ∧
    (∀ (ok : Nat → Bool) (pairs : List Stack.AssetPair),
      (Stack.createStacks ok pairs).1 = pairs.length ↔
        ∀ j, j < pairs.length → ok j = true) ∧
    (∀ env o (r : Stack.StackingResult) calls, o.dryRun = false →
      ((Stack.resultPhase env o r calls).exit = 0 ↔
        ∀ j, j < r.pairs.length → env.stackOk j = true)) ∧
    (∀ env o calls (r : Stack.StackingResult), r.pairs = [] →
      (Stack.resultPhase env o r calls).exit = 0) := by
  have hsnd : ∀ (ok : Nat → Bool) (pairs : List Stack.AssetPair),
      (Stack.createStacks ok pairs).2 =
        pairs.map (fun p =>
          CatalogCall.createStack [p.coverAssetId, p.rawAssetId]) := by
    intro ok pairs
    simpa [Stack.createStacks] using
      congrArg Prod.snd (Stack.createStacksAux_spec ok pairs 0 0 [])
  have hfst : ∀ (ok : Nat → Bool) (pairs : List Stack.AssetPair),
      (Stack.createStacks ok pairs).1 =
        (List.range pairs.length).countP (fun j => ok j) := by
    intro ok pairs
    have := congrArg Prod.fst (Stack.createStacksAux_spec ok pairs 0 0 [])
    simpa [Stack.createStacks] using this
  have hcount : ∀ (ok : Nat → Bool) (pairs : List Stack.AssetPair),
      (Stack.createStacks ok pairs).1 = pairs.length ↔
        ∀ j, j < pairs.length → ok j = true := by
    intro ok pairs
    rw [hfst]
    constructor
    · intro h j hj
      have hlen : (List.range pairs.length).countP (fun j => ok j) =
          (List.range pairs.length).length := by simpa using h
      exact List.countP_eq_length.mp hlen j (List.mem_range.mpr hj)
    · intro h
      have : (List.range pairs.length).countP (fun j => ok j) =
          (List.range pairs.length).length :=
        List.countP_eq_length.mpr (fun j hj => h j (List.mem_range.mp hj))
      simpa using this
  refine ⟨hsnd, hcount, ?_, ?_⟩
  · intro env o r calls hdry
    unfold Stack.resultPhase
    by_cases hp : r.pairs.length = 0
    · have : r.pairs = [] := List.length_eq_zero.mp hp
      simp [hp, this]
    · simp only [hp, if_false, hdry, Bool.false_eq_true]
      rw [← hcount env.stackOk r.pairs]
      by_cases h : (Stack.createStacks env.stackOk r.pairs).1 = r.pairs.length <;>
        simp [h]
  · intro env o calls r h
    simp [Stack.resultPhase, h]

/-- Helper: on a dry run the tail of the stack command issues no further
calls and exits 0 (it returns before `createStacks` in every branch). -/
theorem stackTail_dryRun (env : Stack.Env) (o : Stack.Options)
    (assets : List AssetData) (calls : List CatalogCall)
    (hdry : o.dryRun = true) :
    Stack.stackTail env o assets calls = ⟨0, calls⟩ := by
  unfold Stack.stackTail Stack.resultPhase
  by_cases h0 : assets.length = 0
  · simp [h0]
  · by_cases hp : (Stack.findMatchingPairs assets o.coverTest o.rawTest
        o.stemMatch).pairs.length = 0 <;>
      simp [h0, hp, hdry]

/-- Helper: the tail of the stack command appends only create-stack calls
to the trace it is given. -/
theorem stackTail_trace (env : Stack.Env) (o : Stack.Options)
    (assets : List AssetData) (calls : List CatalogCall) :
    ∃ scalls, (Stack.stackTail env o assets calls).trace = calls ++ scalls ∧
      ∀ c ∈ scalls, ∃ ids, c = CatalogCall.createStack ids := by
  unfold Stack.stackTail Stack.resultPhase
  by_cases h0 : assets.length = 0
  · exact ⟨[], by simp [h0], by simp⟩
  · set r := Stack.findMatchingPairs assets o.coverTest o.rawTest o.stemMatch
    by_cases hp : r.pairs.length = 0
    · exact ⟨[], by simp [h0, hp], by simp⟩
    · by_cases hd : o.dryRun
      · exact ⟨[], by simp [h0, hp, hd], by simp⟩
      · refine ⟨(Stack.createStacks env.stackOk r.pairs).2,
          by simp [h0, hp, hd], ?_⟩
        intro c hc
        have h2 : (Stack.createStacks env.stackOk r.pairs).2 =
            r.pairs.map (fun p =>
              CatalogCall.createStack [p.coverAssetId, p.rawAssetId]) := by
          simpa [Stack.createStacks] using
            congrArg Prod.snd
              (Stack.createStacksAux_spec env.stackOk r.pairs 0 0 [])
        rw [h2] at hc
        obtain ⟨p, -, rfl⟩ := List.mem_map.mp hc
        exact ⟨_, rfl⟩

/-- Helper: the possible successful outcomes of a stack run — either the
album branch or the date-filtered search branch, each ending in
`stackTail`. -/
theorem stackRun_ok_cases (env : Stack.Env) (o : Stack.Options) (fuel : Nat)
    (out : Stack.Outcome) (h : Stack.stackRun env o fuel = some (.ok out)) :
    (∃ aid, o.albumId = some aid ∧
      out = Stack.stackTail env o (env.albumAssets aid)
        [CatalogCall.getAlbumInfo aid]) ∨
    (∃ assets pages, o.albumId = none ∧
      paginate env.pages 1000 fuel 1 = some (assets, pages) ∧
      out = Stack.stackTail env o assets
        (pages.map CatalogCall.searchAssets)) := by
  cases haid : o.albumId with
  | some aid =>
    left
    have hrun : Stack.stackRun env o fuel =
        some (.ok (Stack.stackTail env o (env.albumAssets aid)
          [CatalogCall.getAlbumInfo aid])) := by
      unfold Stack.stackRun
      rw [haid]
    rw [hrun] at h
    simp only [Option.some.injEq, Except.ok.injEq] at h
    exact ⟨aid, rfl, h.symm⟩
  | none =>
    right
    cases hpa : Stack.parseDate env.validDate o.after with
    | error msg =>
      have hrun : Stack.stackRun env o fuel = some (.error (msg, [])) := by
        unfold Stack.stackRun
        rw [haid, hpa]
      rw [hrun] at h
      simp at h
    | ok v =>
      cases hpb : Stack.parseDate env.validDate o.before with
      | error msg =>
        have hrun : Stack.stackRun env o fuel = some (.error (msg, [])) := by
          unfold Stack.stackRun
          rw [haid, hpa, hpb]
        rw [hrun] at h
        simp at h
      | ok v2 =>
        cases hpg : paginate env.pages 1000 fuel 1 with
        | none =>
          have hrun : Stack.stackRun env o fuel = none := by
            unfold Stack.stackRun
            rw [haid, hpa, hpb, hpg]
          rw [hrun] at h
          simp at h
        | some res =>
          obtain ⟨assets, pages⟩ := res
          have hrun : Stack.stackRun env o fuel =
              some (.ok (Stack.stackTail env o assets
                (pages.map CatalogCall.searchAssets))) := by
            unfold Stack.stackRun
            rw [haid, hpa, hpb, hpg]
          rw [hrun] at h
          simp only [Option.some.injEq, Except.ok.injEq] at h
          exact ⟨assets, pages, rfl, rfl, h.symm⟩

/-- Helper: one location's aggregation issues only field-scoped search
calls. -/
theorem findAssetsForLocationM_calls (env : AutoAlbum.Env) (loc : String)
    (fuel : Nat) (r : AutoAlbum.LocationSearchResult)
    (calls : List CatalogCall)
    (h : AutoAlbum.findAssetsForLocationM env loc fuel = some (r, calls)) :
    ∀ c ∈ calls, ∃ f l p, c = CatalogCall.searchField f l p := by
  unfold AutoAlbum.findAssetsForLocationM at h
  cases hc : AutoAlbum.searchAssetsByField env .city loc fuel with
  | none => rw [hc] at h; simp at h
  | some pc =>
    obtain ⟨city, cp⟩ := pc
    rw [hc] at h
    cases ho : AutoAlbum.searchAssetsByField env .country loc fuel with
    | none => rw [ho] at h; simp at h
    | some po =>
      obtain ⟨country, op⟩ := po
      rw [ho] at h
      cases hs : AutoAlbum.searchAssetsByField env .state loc fuel with
      | none => rw [hs] at h; simp at h
      | some ps =>
        obtain ⟨state, sp⟩ := ps
        rw [hs] at h
        simp only [Option.some.injEq, Prod.mk.injEq] at h
        obtain ⟨-, hcalls⟩ := h
        subst hcalls
        intro c hcm
        simp only [List.mem_append, List.mem_map] at hcm
        rcases hcm with (⟨p, -, rfl⟩ | ⟨p, -, rfl⟩) | ⟨p, -, rfl⟩ <;>
          exact ⟨_, _, _, rfl⟩

/-- Helper: the sequential per-location loop only adds field-scoped
search calls to its accumulated trace. -/
theorem processLocationsAux_calls (env : AutoAlbum.Env) (fuel : Nat) :
    ∀ (locs : List String) ids0 counts0 calls0 ids counts calls,
      AutoAlbum.processLocationsAux env fuel locs ids0 counts0 calls0 =
        some (ids, counts, calls) →
      (∀ c ∈ calls0, ∃ f l p, c = CatalogCall.searchField f l p) →
      ∀ c ∈ calls, ∃ f l p, c = CatalogCall.searchField f l p := by
  intro locs
  induction locs with
  | nil =>
    intro ids0 counts0 calls0 ids counts calls h h0
    simp only [AutoAlbum.processLocationsAux, Option.some.injEq,
      Prod.mk.injEq] at h
    obtain ⟨-, -, hcalls⟩ := h
    subst hcalls
    exact h0
  | cons loc rest ih =>
    intro ids0 counts0 calls0 ids counts calls h h0
    unfold AutoAlbum.processLocationsAux at h
    cases hf : AutoAlbum.findAssetsForLocationM env loc fuel with
    | none => rw [hf] at h; simp at h
    | some res =>
      obtain ⟨r, lcalls⟩ := res
      rw [hf] at h
      refine ih _ _ _ ids counts calls h ?_
      intro c hcm
      rcases List.mem_append.mp hcm with hcm | hcm
      · exact h0 c hcm
      · exact findAssetsForLocationM_calls env loc fuel r lcalls hf c hcm

/-- Helper: the possible successful outcomes of an auto-album run —
either the name-conflict abort, or (no conflict) the dry-run stop or the
single album-creation call after the location loop. -/
theorem autoAlbumRun_ok_cases (env : AutoAlbum.Env) (o : AutoAlbum.Options)
    (fuel : Nat) (out : AutoAlbum.Outcome)
    (h : AutoAlbum.autoAlbumRun env o fuel = some (.ok out)) :
    (AutoAlbum.albumExistsByName env.albums o.name = true ∧
      out = ⟨1, [CatalogCall.getAllAlbums]⟩) ∨
    (AutoAlbum.albumExistsByName env.albums o.name = false ∧
      ∃ ids counts calls,
        AutoAlbum.processLocationsAux env fuel o.locations [] [] [] =
          some (ids, counts, calls) ∧
        ((o.dryRun = true ∧
          out = ⟨0, CatalogCall.getAllAlbums :: calls⟩) ∨
         (o.dryRun = false ∧
          out = ⟨if env.createAlbumOk then 0 else 1,
            (CatalogCall.getAllAlbums :: calls) ++
              [CatalogCall.createAlbumCall o.name ids]⟩))) := by
  by_cases hva : env.validDate o.after = false
  · simp [AutoAlbum.autoAlbumRun, hva] at h
  · by_cases hvb : env.validDate o.before = false
    · simp [AutoAlbum.autoAlbumRun, hva, hvb] at h
    · cases hex : AutoAlbum.albumExistsByName env.albums o.name with
      | true =>
        left
        refine ⟨rfl, ?_⟩
        have hrun : AutoAlbum.autoAlbumRun env o fuel =
            some (.ok ⟨1, [CatalogCall.getAllAlbums]⟩) := by
          unfold AutoAlbum.autoAlbumRun
          simp [hva, hvb, hex]
        rw [hrun] at h
        simp only [Option.some.injEq, Except.ok.injEq] at h
        exact h.symm
      | false =>
        right
        refine ⟨rfl, ?_⟩
        cases hp : AutoAlbum.processLocationsAux env fuel o.locations [] [] []
          with
        | none =>
          have hrun : AutoAlbum.autoAlbumRun env o fuel = none := by
            unfold AutoAlbum.autoAlbumRun
            simp [hva, hvb, hex, hp]
          rw [hrun] at h
          simp at h
        | some res =>
          obtain ⟨ids, counts, calls⟩ := res
          refine ⟨ids, counts, calls, rfl, ?_⟩
          by_cases hd : o.dryRun
          · left
            refine ⟨hd, ?_⟩
            have hrun : AutoAlbum.autoAlbumRun env o fuel =
                some (.ok ⟨0, CatalogCall.getAllAlbums :: calls⟩) := by
              unfold AutoAlbum.autoAlbumRun
              simp [hva, hvb, hex, hp, hd]
            rw [hrun] at h
            simp only [Option.some.injEq, Except.ok.injEq] at h
            exact h.symm
          · right
            refine ⟨by simpa using hd, ?_⟩
            have hrun : AutoAlbum.autoAlbumRun env o fuel =
                some (.ok ⟨if env.createAlbumOk then 0 else 1,
                  (CatalogCall.getAllAlbums :: calls) ++
                    [CatalogCall.createAlbumCall o.name ids]⟩) := by
              unfold AutoAlbum.autoAlbumRun
              simp [hva, hvb, hex, hp, hd]
            rw [hrun] at h
            simp only [Option.some.injEq, Except.ok.injEq] at h
            exact h.symm

/-- C9 witness: with every create call succeeding and one resolved pair,
the command's result phase reports exit code 0. -/
theorem C9_stack_creation_witness :
    (Stack.resultPhase ⟨fun _ => true, fun _ => [], fun _ => [], fun _ => true⟩
      ⟨coverJpg, rawDng, none, false, none, none, none⟩
      ⟨[⟨"a1", "IMG_001.jpg", "a2", "IMG_001.dng", "IMG_001"⟩], 0, [], []⟩
      []).exit = 0 := by
  exact (C9_stack_creation.2.2.1
    ⟨fun _ => true, fun _ => [], fun _ => [], fun _ => true⟩
    ⟨coverJpg, rawDng, none, false, none, none, none⟩
    ⟨[⟨"a1", "IMG_001.jpg", "a2", "IMG_001.dng", "IMG_001"⟩], 0, [], []⟩
    [] rfl).mpr (fun j hj => rfl)

/-- C2: the auto-album command attempts album creation only if no
existing album's name equals the target under case-sensitive exact
comparison; when a match exists (and the dates are valid, so the check is
reached) the command returns exit code 1 having issued only the album
listing, no mutating call; with a concrete pair of evaluations showing
the comparison is case-sensitive. -/
theorem C2_album_name_conflict :
    (∀ (albums : List Album) (name : String),
      AutoAlbum.albumExistsByName albums name = true ↔
        ∃ a ∈ albums, a.albumName = name) ∧
    (∀ env o fuel, env.validDate o.after = true →
      env.validDate o.before = true →
      AutoAlbum.albumExistsByName env.albums o.name = true →
      AutoAlbum.autoAlbumRun env o fuel =
        some (.ok ⟨1, [CatalogCall.getAllAlbums]⟩)) ∧
    (∀ env o fuel out,
      AutoAlbum.autoAlbumRun env o fuel = some (.ok out) →
      (∃ n ids, CatalogCall.createAlbumCall n ids ∈ out.trace) →
      AutoAlbum.albumExistsByName env.albums o.name = false) ∧
    (AutoAlbum.albumExistsByName [⟨"i1", "trip"⟩] "Trip" = false ∧
     AutoAlbum.albumExistsByName [⟨"i1", "Trip"⟩] "Trip" = true) := by
  refine ⟨?_, ?_, ?_, by decide, by decide⟩
  · intro albums name
    simp [AutoAlbum.albumExistsByName, List.any_eq_true]
  · intro env o fuel hva hvb hex
    unfold AutoAlbum.autoAlbumRun
    simp [hva, hvb, hex]
  · intro env o fuel out h hmem
    rcases autoAlbumRun_ok_cases env o fuel out h with ⟨hex, hout⟩ | ⟨hex, -⟩
    · exfalso
      obtain ⟨n, ids, hmem⟩ := hmem
      rw [hout] at hmem
      simp at hmem
    · exact hex

/-- C2 witness: with `"Trip"` already present the run exits 1 after only
the album listing. -/
theorem C2_album_name_conflict_witness :
    AutoAlbum.autoAlbumRun envC2 optsC2 1 =
      some (.ok ⟨1, [CatalogCall.getAllAlbums]⟩) :=
  C2_album_name_conflict.2.1 envC2 optsC2 1 rfl rfl (by decide)

/-- C1 counterexample: a stack invocation issues a mutating create-stack
call although its trace contains no album listing at all — the claimed
album-list pre-check does not exist in stack mode. -/
theorem C1_counterexample :
    Stack.stackRun envC1 optsC1 1 =
      some (.ok ⟨0, [CatalogCall.getAlbumInfo "alb",
        CatalogCall.createStack ["a1", "a2"]]⟩) ∧
    CatalogCall.getAllAlbums ∉
      [CatalogCall.getAlbumInfo "alb",
        CatalogCall.createStack ["a1", "a2"]] ∧
    (CatalogCall.createStack ["a1", "a2"]).isMutation = true := by
  decide

/-- C1 (amended): only the album-creation command performs the pre-check:
its first catalog call is always the full album listing, and a mutating
create-album call occurs only when no album with the target name exists;
the stack command never retrieves the album list at all. -/
theorem C1_precheck_amended :
    (∀ env o fuel out,
      AutoAlbum.autoAlbumRun env o fuel = some (.ok out) →
      out.trace.head? = some CatalogCall.getAllAlbums) ∧
    (∀ env o fuel out n ids,
      AutoAlbum.autoAlbumRun env o fuel = some (.ok out) →
      CatalogCall.createAlbumCall n ids ∈ out.trace →
      AutoAlbum.albumExistsByName env.albums o.name = false) ∧
    (∀ env o fuel out, Stack.stackRun env o fuel = some (.ok out) →
      CatalogCall.getAllAlbums ∉ out.trace) := by
  refine ⟨?_, ?_, ?_⟩
  · intro env o fuel out h
    rcases autoAlbumRun_ok_cases env o fuel out h with
      ⟨-, hout⟩ | ⟨-, ids, counts, calls, -, ⟨-, hout⟩ | ⟨-, hout⟩⟩ <;>
      simp [hout]
  · intro env o fuel out n ids h hmem
    rcases autoAlbumRun_ok_cases env o fuel out h with ⟨hex, hout⟩ | ⟨hex, -⟩
    · exfalso
      rw [hout] at hmem
      simp at hmem
    · exact hex
  · intro env o fuel out h hmem
    rcases stackRun_ok_cases env o fuel out h with
      ⟨aid, -, hout⟩ | ⟨assets, pages, -, -, hout⟩
    · obtain ⟨scalls, htr, hsh⟩ :=
        stackTail_trace env o (env.albumAssets aid)
          [CatalogCall.getAlbumInfo aid]
      rw [hout, htr] at hmem
      rcases List.mem_append.mp hmem with hmem | hmem
      · simp at hmem
      · obtain ⟨ids, hc⟩ := hsh _ hmem
        exact absurd hc (by simp)
    · obtain ⟨scalls, htr, hsh⟩ :=
        stackTail_trace env o assets (pages.map CatalogCall.searchAssets)
      rw [hout, htr] at hmem
      rcases List.mem_append.mp hmem with hmem | hmem
      · obtain ⟨p, -, hc⟩ := List.mem_map.mp hmem
        exact absurd hc.symm (by simp)
      · obtain ⟨ids, hc⟩ := hsh _ hmem
        exact absurd hc (by simp)

/-- C1 amended witness: the concrete auto-album run's first catalog call
is the full album listing. -/
theorem C1_precheck_amended_witness :
    outW1.trace.head? = some CatalogCall.getAllAlbums :=
  C1_precheck_amended.1 envW1 optsW1 1 outW1 (by decide)

/-- C8 counterexample: with `--album` supplied and an invalid `--after`,
the run makes a network call (the album fetch) and finishes with exit
code 0 — the invalid date is never detected, contradicting the claim for
this option combination. -/
theorem C8_counterexample :
    optsC8.after = some "garbage" ∧
    envC8.validDate "garbage" = false ∧
    Stack.stackRun envC8 optsC8 1 =
      some (.ok ⟨0, [CatalogCall.getAlbumInfo "alb"]⟩) := by
  decide

/-- C8 (amended): when `--album` is NOT supplied, a non-empty `--after`
or `--before` that does not parse as a valid date is detected before any
network call (the thrown error carries an empty call trace) and the
command exits non-zero; when `--album` is supplied the date options are
never parsed — the run proceeds directly from the album fetch (an empty
date string is likewise treated as absent by the falsy guard). -/
theorem C8_invalid_date_amended :
    (∀ env o fuel, o.albumId = none →
      ((∃ s, o.after = some s ∧ s ≠ "" ∧ env.validDate s = false) ∨
       (∃ s, o.before = some s ∧ s ≠ "" ∧ env.validDate s = false)) →
      ∃ msg, Stack.stackRun env o fuel = some (.error (msg, [])) ∧
        Stack.mainExit (Stack.stackRun env o fuel) = some 1) ∧
    (∀ env o fuel aid, o.albumId = some aid →
      Stack.stackRun env o fuel =
        some (.ok (Stack.stackTail env o (env.albumAssets aid)
          [CatalogCall.getAlbumInfo aid]))) := by
  constructor
  · intro env o fuel haid hbad
    cases hpa : Stack.parseDate env.validDate o.after with
    | error msg =>
      refine ⟨msg, ?_⟩
      have hrun : Stack.stackRun env o fuel = some (.error (msg, [])) := by
        unfold Stack.stackRun
        rw [haid, hpa]
      exact ⟨hrun, by rw [hrun]; rfl⟩
    | ok v =>
      have hbefore : ∃ s, o.before = some s ∧ s ≠ "" ∧
          env.validDate s = false := by
        rcases hbad with ⟨s, hs, hne, hv⟩ | hb
        · exfalso
          rw [hs] at hpa
          simp only [Stack.parseDate, hne, if_false, hv] at hpa
          simp [hne, hv] at hpa
        · exact hb
      obtain ⟨s, hs, hne, hv⟩ := hbefore
      have hpb : Stack.parseDate env.validDate o.before =
          .error ("Invalid date format: " ++ s) := by
        rw [hs]
        simp [Stack.parseDate, hne, hv]
      refine ⟨"Invalid date format: " ++ s, ?_⟩
      have hrun : Stack.stackRun env o fuel =
          some (.error ("Invalid date format: " ++ s, [])) := by
        unfold Stack.stackRun
        rw [haid, hpa, hpb]
      exact ⟨hrun, by rw [hrun]; rfl⟩
  · intro env o fuel aid haid
    unfold Stack.stackRun
    rw [haid]

/-- C8 amended witness: the concrete invalid-date run throws before any
catalog call and the shell observes exit code 1. -/
theorem C8_invalid_date_amended_witness :
    ∃ msg, Stack.stackRun envW8 optsW8 1 = some (.error (msg, [])) ∧
      Stack.mainExit (Stack.stackRun envW8 optsW8 1) = some 1 :=
  C8_invalid_date_amended.1 envW8 optsW8 1 rfl
    (Or.inl ⟨"nope", rfl, by decide, rfl⟩)

/-- C10 counterexample: a dry-run auto-album invocation whose (single,
successful) retrieval is the album listing still exits 1 because the name
already exists — dry-run does not guarantee exit code 0. -/
theorem C10_counterexample :
    optsC10.dryRun = true ∧
    AutoAlbum.autoAlbumRun envC10 optsC10 1 =
      some (.ok ⟨1, [CatalogCall.getAllAlbums]⟩) := by
  decide

/-- C10 (amended): with dry-run enabled neither command's successful run
issues any mutating catalog call; the stack command then always exits 0,
and the auto-album command exits 0 provided additionally no album with
the target name already exists. -/
theorem C10_dry_run_amended :
    (∀ env o fuel out, o.dryRun = true →
      Stack.stackRun env o fuel = some (.ok out) →
      (∀ c ∈ out.trace, c.isMutation = false) ∧ out.exit = 0) ∧
    (∀ env o fuel out, o.dryRun = true →
      AutoAlbum.autoAlbumRun env o fuel = some (.ok out) →
      (∀ c ∈ out.trace, c.isMutation = false) ∧
      (AutoAlbum.albumExistsByName env.albums o.name = false →
        out.exit = 0)) := by
  constructor
  · intro env o fuel out hdry h
    rcases stackRun_ok_cases env o fuel out h with
      ⟨aid, -, hout⟩ | ⟨assets, pages, -, -, hout⟩
    · rw [hout, stackTail_dryRun env o _ _ hdry]
      refine ⟨?_, rfl⟩
      intro c hc
      simp only [List.mem_singleton] at hc
      subst hc
      rfl
    · rw [hout, stackTail_dryRun env o _ _ hdry]
      refine ⟨?_, rfl⟩
      intro c hc
      obtain ⟨p, -, rfl⟩ := List.mem_map.mp hc
      rfl
  · intro env o fuel out hdry h
    rcases autoAlbumRun_ok_cases env o fuel out h with
      ⟨hex, hout⟩ | ⟨hex, ids, counts, calls, hp, hcase⟩
    · refine ⟨?_, fun hfalse => by rw [hex] at hfalse; cases hfalse⟩
      rw [hout]
      intro c hc
      simp only [List.mem_singleton] at hc
      subst hc
      rfl
    · rcases hcase with ⟨-, hout⟩ | ⟨hd, -⟩
      · refine ⟨?_, fun _ => by rw [hout]⟩
        rw [hout]
        intro c hc
        simp only [List.mem_cons] at hc
        rcases hc with rfl | hc
        · rfl
        · obtain ⟨f, l, p, rfl⟩ :=
            processLocationsAux_calls env fuel o.locations [] [] []
              ids counts calls hp (by simp) c hc
          rfl
      · rw [hdry] at hd
        cases hd

/-- C10 amended witness: the concrete dry-run stack invocation issues no
mutating call and exits 0. -/
theorem C10_dry_run_amended_witness :
    (∀ c ∈ outW10.trace, c.isMutation = false) ∧ outW10.exit = 0 :=
  C10_dry_run_amended.1 envW10 optsW10 1 outW10 rfl (by decide)


